import Mathlib

/-!
Verification of the VIT-GPA-Calculator core (src/main.py and
src/main_advanced.py) against its natural-language specification.

The Python code is shallowly embedded: pandas dataframe pipelines become
functions over lists of records, Python dicts keyed by grade symbols become
total functions `Grade → Option ℚ` (`none` = key absent), numeric values
are modelled exactly (ℤ for integer credits, ℚ for user-entered amounts
and CGPA arithmetic), and `raise` becomes `Except`.
-/

/-- The grade symbols accepted by the program (`clean_table_data` keeps rows
whose grade is in `['S','A','B','C','D','E','F','P']`). -/
inductive Grade
  | S | A | B | C | D | E | F | P
deriving DecidableEq, Repr, Fintype, BEq

/-- `self.grade_points` from both `main.py` and `main_advanced.py`:
`{'S':10,'A':9,'B':8,'C':7,'D':6,'E':5,'F':0}`.  `P` is not a key of the
dict, modelled as `none`. -/
def gradePoints : Grade → Option ℕ
  | .S => some 10
  | .A => some 9
  | .B => some 8
  | .C => some 7
  | .D => some 6
  | .E => some 5
  | .F => some 0
  | .P => none

/-- The insertion (= iteration) order of the keys of `self.grade_points`. -/
def gradePointsKeys : List Grade := [.S, .A, .B, .C, .D, .E, .F]

/-- A Python dict mapping grade symbols to credit amounts.  `none` models
an absent key. -/
def DistMap : Type := Grade → Option ℚ

instance : DecidableEq DistMap := by
  unfold DistMap
  infer_instance

/-- `d.get(g, 0)` on a Python dict. -/
def dget (d : DistMap) (g : Grade) : ℚ := (d g).getD 0

/-- `d[g] = v` on a Python dict (returns the updated dict). -/
def dset (d : DistMap) (g : Grade) (v : ℚ) : DistMap :=
  fun g2 => if g2 = g then some v else d g2

/-- The empty dict `{}`. -/
def emptyDist : DistMap := fun _ => none

/-- Total credits held in a distribution dict, `sum(d.values())`. -/
def dtotal (d : DistMap) : ℚ := ∑ g : Grade, dget d g

/-- The errors raised by the simulators (Python `ValueError` messages, plus
the `KeyError` that `main_advanced.py`'s `new_distribution[from_grade] -=
credits` raises when the key is absent). -/
inductive SimError
  | invalidGrade
  | invalidCredits
  | notEnoughCredits (g : Grade)
  | keyError (g : Grade)
deriving DecidableEq, Repr

deriving instance DecidableEq for Except

/-- `CGPACalculator.simulate_future_courses` from `main_advanced.py`
(lines 198–207): for each `(grade, credits)` pair, check the grade is a key
of `grade_points`, then `new_distribution[grade] =
new_distribution.get(grade, 0) + credits`.  There is no check on the sign
of `credits`. -/
def simulate_future_courses (d : DistMap) : List (Grade × ℚ) → Except SimError DistMap
  | [] => .ok d
  | (g, c) :: rest =>
    if (gradePoints g).isSome then
      simulate_future_courses (dset d g (dget d g + c)) rest
    else
      .error .invalidGrade

/-- `CGPACalculator.simulate_improvement` from `main_advanced.py`
(lines 158–170): for each `(from_grade, to_grade, credits)`, validate both
grades, check `credits > new_distribution.get(from_grade, 0)`, then
`new_distribution[from_grade] -= credits` (a `KeyError` if the key is
absent) and `new_distribution[to_grade] =
new_distribution.get(to_grade, 0) + credits`.  No `credits > 0` check. -/
def simulate_improvement (d : DistMap) :
    List (Grade × Grade × ℚ) → Except SimError DistMap
  | [] => .ok d
  | (fg, tg, c) :: rest =>
    if ¬ (gradePoints fg).isSome ∨ ¬ (gradePoints tg).isSome then
      .error .invalidGrade
    else if c > dget d fg then
      .error (.notEnoughCredits fg)
    else
      match d fg with
      | none => .error (.keyError fg)
      | some v =>
        simulate_improvement
          (dset (dset d fg (v - c)) tg (dget (dset d fg (v - c)) tg + c)) rest

/-- `CGPACalculator.simulate_improvement` from `main.py` (lines 175–191),
the per-change loop: additionally rejects `credits <= 0`
("Credits must be a positive number."), and subtracts via
`new_distribution.get(from_grade, 0) - credits` (no `KeyError`).  The
function then computes a CGPA from the resulting dict; the loop part is
modelled here. -/
def simulate_improvement_main (d : DistMap) :
    List (Grade × Grade × ℚ) → Except SimError DistMap
  | [] => .ok d
  | (fg, tg, c) :: rest =>
    if ¬ (gradePoints fg).isSome ∨ ¬ (gradePoints tg).isSome then
      .error .invalidGrade
    else if c ≤ 0 then
      .error .invalidCredits
    else if c > dget d fg then
      .error (.notEnoughCredits fg)
    else
      simulate_improvement_main
        (dset (dset d fg (dget d fg - c)) tg
          (dget (dset d fg (dget d fg - c)) tg + c)) rest

/-- A cleaned course record as produced by `clean_table_data`: only the
`credits` and `grade` columns feed the CGPA/distribution arithmetic. -/
structure CourseRec where
  credits : ℤ
  grade : Grade
deriving DecidableEq, Repr

/-- `CGPACalculator.calculate_current_cgpa` from `main.py` (lines 121–134):
filter out grade `'P'`, build a `grade_points` column by mapping the grade
dict, build a `weighted_points` column as the element-wise product with
`credits`, and return `total_weighted_points / total_credits` when
`total_credits > 0`, else `0.0`.  (After the filter every grade is a key of
the dict, so the `getD 0` default is never used.) -/
def calculate_current_cgpa_main (df : List CourseRec) : ℚ :=
  let df_calc := df.filter fun r => r.grade != Grade.P
  let grade_points_col := df_calc.map fun r => ((gradePoints r.grade).getD 0 : ℤ)
  let weighted_points_col : List ℤ :=
    List.zipWith (fun c p => c * p) (df_calc.map fun r => r.credits) grade_points_col
  let total_credits : ℤ := (df_calc.map fun r => r.credits).sum
  let total_weighted_points : ℤ := weighted_points_col.sum
  if total_credits > 0 then (total_weighted_points : ℚ) / (total_credits : ℚ) else 0

/-- `CGPACalculator.calculate_current_cgpa` from `main_advanced.py`
(lines 105–110): filter out grade `'P'`, then
`total_points = (df_calc["credits"] * df_calc["grade_points"]).sum()` and
`total_points / total_credits if total_credits > 0 else 0.0`. -/
def calculate_current_cgpa_adv (df : List CourseRec) : ℚ :=
  let df_calc := df.filter fun r => r.grade != Grade.P
  let total_credits : ℤ := (df_calc.map fun r => r.credits).sum
  let total_points : ℤ :=
    (List.zipWith (fun c p => c * p) (df_calc.map fun r => r.credits)
      (df_calc.map fun r => ((gradePoints r.grade).getD 0 : ℤ))).sum
  if total_credits > 0 then (total_points : ℚ) / (total_credits : ℚ) else 0

/-- Total credits of the records bearing grade `g`:
`df[df['grade'] == grade]['credits'].sum()`. -/
def creditsForGrade (df : List CourseRec) (g : Grade) : ℤ :=
  ((df.filter fun r => r.grade == g).map fun r => r.credits).sum

/-- `CGPACalculator.get_grade_distribution` (both files): iterate over the
keys of `self.grade_points` (so `'P'` is never visited), sum the credits of
the rows bearing that grade, and insert into the result dict only when the
sum is `> 0`.  The Python dict, built by insertion, is modelled as an
association list in key-iteration order. -/
def get_grade_distribution (df : List CourseRec) : List (Grade × ℤ) :=
  gradePointsKeys.filterMap fun g =>
    let credits := creditsForGrade df g
    if credits > 0 then some (g, credits) else none

/-- `possible_grades = ['S','A','B','C','D','E','F']` from
`plan_target_cgpa` in `main_advanced.py`. -/
def possibleGrades : List Grade := [.S, .A, .B, .C, .D, .E, .F]

/-- `itertools.product(possible_grades, repeat=k)`: all `7^k` grade
assignments, first coordinate varying slowest. -/
def allCombos : ℕ → List (List Grade)
  | 0 => [[]]
  | n + 1 => possibleGrades.flatMap fun g => (allCombos n).map fun combo => g :: combo

/-- The inner loop of the aggregate mode of `plan_target_cgpa`
(`main_advanced.py` lines 486–489): `future_points += credits *
calculator.grade_points.get(grade, 0)` over `zip(groups, combo)`. -/
def future_points (groups : List ℚ) (combo : List Grade) : ℚ :=
  ((groups.zip combo).map fun p => p.1 * ((gradePoints p.2).getD 0 : ℚ)).sum

/-- `projected_cgpa = (current_total_points + future_points) /
(current_total_credits + total_future_credits)` from `plan_target_cgpa`
(`main_advanced.py` line 490). -/
def projected_cgpa (ctc ctp : ℚ) (groups : List ℚ) (combo : List Grade) : ℚ :=
  (ctp + future_points groups combo) / (ctc + groups.sum)

/-- The aggregate mode of `plan_target_cgpa` from `main_advanced.py`
(lines 477–494), given the target, the current aggregates and the group
credit weights: computes `required_avg`, filters the `7^k` grade
assignments by `projected_cgpa >= target`, and sorts the survivors
ascending by projected CGPA (`valid_combinations.sort(key=lambda x: x[1])`). -/
def plan_target_cgpa (target ctc ctp : ℚ) (groups : List ℚ) :
    ℚ × List (List Grade × ℚ) :=
  let total_future_credits := groups.sum
  let required_avg := (target * (ctc + total_future_credits) - ctp) / total_future_credits
  let valid_combinations := (allCombos groups.length).filterMap fun combo =>
    if projected_cgpa ctc ctp groups combo ≥ target then
      some (combo, projected_cgpa ctc ctp groups combo)
    else none
  (required_avg, valid_combinations.mergeSort fun a b => decide (a.2 ≤ b.2))

/-- A raw transcript row at the deduplication stage of `clean_table_data`:
only the `normalized_title` key and the payload columns matter. -/
structure RawRow where
  normalized_title : String
  credits : ℤ
  grade : Grade
deriving DecidableEq, Repr

/-- `df.drop_duplicates(subset=key, keep='first')`: keep the first row with
each key value, preserving row order. -/
def dropDuplicatesBy {α β : Type} [DecidableEq β] (key : α → β) : List α → List α
  | [] => []
  | x :: xs =>
    x :: dropDuplicatesBy key (xs.filter fun y => decide (key y ≠ key x))
termination_by l => l.length
decreasing_by
  simp only [List.length_cons]
  exact Nat.lt_succ_of_le (List.length_filter_le _ _)

/-- The no-date-column branch of `clean_table_data` (both files,
`main.py` lines 91–99): `df['Date'] = pd.date_range(end='today',
periods=len(df), freq='D')` assigns each row the date `today − (n−1−i)`
days, a strictly increasing sequence in row order, modelled by the row
index itself; then `df.sort_values('Date', ascending=False)` and
`df.drop_duplicates(subset='normalized_title', keep='first')`. -/
def clean_dedup_no_date (rows : List RawRow) : List RawRow :=
  let dated := rows.enum
  let sorted := dated.mergeSort fun a b => decide (b.1 ≤ a.1)
  (dropDuplicatesBy (fun p => p.2.normalized_title) sorted).map fun p => p.2

/-- C10: the `calculate_current_cgpa` of `main.py` and the
`calculate_current_cgpa` of `main_advanced.py` return equal values on every
record table with the same credits and grade columns. -/
theorem cgpa_main_eq_cgpa_adv (df : List CourseRec) :
    calculate_current_cgpa_main df = calculate_current_cgpa_adv df := rfl

/-- C6: whenever the total CGPA-eligible credits (grade `P` excluded) of a
record table is zero — in particular for the empty table and for an
all-`P` table — both implementations of `calculate_current_cgpa` return
`0.0` instead of signalling an error. -/
theorem cgpa_zero_when_no_eligible_credits (df : List CourseRec)
    (h : ((df.filter fun r => r.grade != Grade.P).map fun r => r.credits).sum = 0) :
    calculate_current_cgpa_main df = 0 ∧ calculate_current_cgpa_adv df = 0 := by
  unfold calculate_current_cgpa_main calculate_current_cgpa_adv
  simp only [h]
  norm_num

/-- Witness for C6 at the concrete all-`P` table `[{credits := 3, grade := P}]`. -/
theorem cgpa_zero_when_no_eligible_credits_witness :
    ((([⟨3, Grade.P⟩] : List CourseRec).filter fun r => r.grade != Grade.P).map
        fun r => r.credits).sum = 0 ∧
      (calculate_current_cgpa_main [⟨3, Grade.P⟩] = 0 ∧
        calculate_current_cgpa_adv [⟨3, Grade.P⟩] = 0) :=
  ⟨by decide, cgpa_zero_when_no_eligible_credits [⟨3, Grade.P⟩] (by decide)⟩

/-- C2: `simulate_future_courses` does not reject a non-positive credit
amount.  On the empty distribution with the single addition `('A', -3)` it
returns a distribution (with `A ↦ -3`) instead of an error, so the claimed
`InvalidAdditionError` rejection is absent from the code. -/
theorem future_accepts_nonpositive_credits :
    simulate_future_courses emptyDist [(Grade.A, -3)] =
      .ok (dset emptyDist Grade.A (-3)) := by
  simp only [simulate_future_courses, gradePoints, Option.isSome_some, if_true, Except.ok.injEq]
  funext g
  cases g <;> simp [dset, dget, emptyDist]

/-- C3: the no-negative-credits invariant fails on the code:
`simulate_future_courses` applied to the non-negative distribution
`{B: 2}` with the addition `('B', -5)` succeeds and returns a distribution
whose `B` entry is `-3 < 0`. -/
theorem future_breaks_nonneg_invariant :
    simulate_future_courses (dset emptyDist Grade.B 2) [(Grade.B, -5)] =
      .ok (dset (dset emptyDist Grade.B 2) Grade.B (-3)) ∧
    dget (dset (dset emptyDist Grade.B 2) Grade.B (-3)) Grade.B < 0 := by
  constructor
  · simp only [simulate_future_courses, gradePoints, Option.isSome_some, if_true,
      Except.ok.injEq]
    funext g
    cases g <;> simp [dset, dget, emptyDist] <;> norm_num
  · simp [dset, dget, emptyDist]

/-- `d.get(·, 0)` after `d[g] = v` is a pointwise update. -/
theorem dget_dset (d : DistMap) (g : Grade) (v : ℚ) :
    dget (dset d g v) = Function.update (dget d) g v := by
  funext g2
  unfold dget dset Function.update
  by_cases h : g2 = g <;> simp [h]

/-- Setting one key changes the total by the difference at that key. -/
theorem dtotal_dset (d : DistMap) (g : Grade) (v : ℚ) :
    dtotal (dset d g v) = dtotal d - dget d g + v := by
  have h1 : ∑ x : Grade, dget d x =
      dget d g + ∑ x ∈ Finset.univ.erase g, dget d x :=
    (Finset.add_sum_erase _ _ (Finset.mem_univ g)).symm
  unfold dtotal
  rw [dget_dset, Finset.sum_update_of_mem (Finset.mem_univ g), h1,
    Finset.sdiff_singleton_eq_erase]
  ring

/-- One conversion step of `main_advanced.py`'s `simulate_improvement`
conserves the total: `-= credits` on one key, `+= credits` on another. -/
theorem dtotal_step (d : DistMap) (fg tg : Grade) (c v : ℚ) (hv : d fg = some v) :
    dtotal (dset (dset d fg (v - c)) tg (dget (dset d fg (v - c)) tg + c)) =
      dtotal d := by
  have hget : dget d fg = v := by unfold dget; rw [hv]; rfl
  rw [dtotal_dset, dtotal_dset, hget]
  ring

/-- Helper for C4: every successful `simulate_improvement`
(`main_advanced.py`) batch conserves the total credits. -/
theorem conserve_adv :
    ∀ (changes : List (Grade × Grade × ℚ)) (d d' : DistMap),
      simulate_improvement d changes = .ok d' → dtotal d' = dtotal d
  | [], d, d', h => by
    unfold simulate_improvement at h
    cases h
    rfl
  | (fg, tg, c) :: rest, d, d', h => by
    unfold simulate_improvement at h
    split at h
    · cases h
    · split at h
      · cases h
      · revert h
        match hv : d fg with
        | none => intro h; cases h
        | some v =>
          intro h
          have := conserve_adv rest _ _ h
          rw [this, dtotal_step d fg tg c v hv]

/-- Helper for C4: every successful `simulate_improvement`
(`main.py`) batch conserves the total credits. -/
theorem conserve_main :
    ∀ (changes : List (Grade × Grade × ℚ)) (d d' : DistMap),
      simulate_improvement_main d changes = .ok d' → dtotal d' = dtotal d
  | [], d, d', h => by
    unfold simulate_improvement_main at h
    cases h
    rfl
  | (fg, tg, c) :: rest, d, d', h => by
    unfold simulate_improvement_main at h
    split at h
    · cases h
    · split at h
      · cases h
      · split at h
        · cases h
        · have := conserve_main rest _ _ h
          rw [this, dtotal_dset, dtotal_dset]
          ring

/-- C4: for every distribution and conversion batch on which
`simulate_improvement` succeeds (either implementation), the total credits
of the returned distribution equal the total credits of the input
distribution — credits move between grades, never created or destroyed. -/
theorem improvement_conserves_total_credits (d d' : DistMap)
    (changes : List (Grade × Grade × ℚ)) :
    (simulate_improvement d changes = .ok d' → dtotal d' = dtotal d) ∧
    (simulate_improvement_main d changes = .ok d' → dtotal d' = dtotal d) :=
  ⟨conserve_adv changes d d', conserve_main changes d d'⟩

/-- Witness for C4 at the spec's Example 2: distribution `{A:10, B:6}`,
converting 4 credits from `B` to `A`, conserves the total. -/
theorem improvement_conserves_total_credits_witness :
    simulate_improvement (dset (dset emptyDist Grade.A 10) Grade.B 6)
        [(Grade.B, Grade.A, 4)] =
      .ok (dset (dset (dset (dset emptyDist Grade.A 10) Grade.B 6) Grade.B 2)
        Grade.A 14) ∧
    dtotal (dset (dset (dset (dset emptyDist Grade.A 10) Grade.B 6) Grade.B 2)
        Grade.A 14) =
      dtotal (dset (dset emptyDist Grade.A 10) Grade.B 6) := by
  have h : simulate_improvement (dset (dset emptyDist Grade.A 10) Grade.B 6)
      [(Grade.B, Grade.A, 4)] =
      .ok (dset (dset (dset (dset emptyDist Grade.A 10) Grade.B 6) Grade.B 2)
        Grade.A 14) := by
    simp only [simulate_improvement, gradePoints, Option.isSome_some, dget, dset,
      emptyDist]
    norm_num
    funext g
    cases g <;> simp [dset, emptyDist] <;> norm_num
  exact ⟨h, (improvement_conserves_total_credits _ _ _).1 h⟩

/-- `simulate_improvement` processes a batch left to right: the run on
`pre ++ suf` is the run on `pre` followed, on success, by the run on
`suf` from the intermediate state. -/
theorem simulate_improvement_append :
    ∀ (pre suf : List (Grade × Grade × ℚ)) (d : DistMap),
      simulate_improvement d (pre ++ suf) =
        (simulate_improvement d pre).bind fun s => simulate_improvement s suf
  | [], _, _ => rfl
  | (fg, tg, c) :: pre, suf, d => by
    show simulate_improvement d ((fg, tg, c) :: (pre ++ suf)) = _
    simp only [simulate_improvement]
    split
    · rfl
    · split
      · rfl
      · cases hv : d fg with
        | none => rfl
        | some v => exact simulate_improvement_append pre suf _

/-- `main.py`'s `simulate_improvement` loop also processes its batch left
to right: the run on `pre ++ suf` is the run on `pre` followed, on
success, by the run on `suf` from the intermediate state. -/
theorem simulate_improvement_main_append :
    ∀ (pre suf : List (Grade × Grade × ℚ)) (d : DistMap),
      simulate_improvement_main d (pre ++ suf) =
        (simulate_improvement_main d pre).bind fun s => simulate_improvement_main s suf
  | [], _, _ => rfl
  | (fg, tg, c) :: pre, suf, d => by
    show simulate_improvement_main d ((fg, tg, c) :: (pre ++ suf)) = _
    simp only [simulate_improvement_main]
    split
    · rfl
    · split
      · rfl
      · split
        · rfl
        · exact simulate_improvement_main_append pre suf _

/-- C9: if, in the state produced by a successful prefix of the batch, some
conversion requests more credits than its `from`-grade holds, the whole
`simulate_improvement` call fails with the not-enough-credits error — in
`main_advanced.py`'s implementation and likewise in `main.py`'s loop
(there, under its additional `credits > 0` precondition, which any
over-request of the claim's kind satisfies).  The caller gets an error,
never a partially applied distribution (the input distribution, being a
pure-function argument, is untouched). -/
theorem improvement_insufficient_credits_fails (d s : DistMap)
    (pre rest : List (Grade × Grade × ℚ)) (fg tg : Grade) (c : ℚ)
    (hfg : (gradePoints fg).isSome) (htg : (gradePoints tg).isSome)
    (hc : dget s fg < c) :
    (simulate_improvement d pre = .ok s →
      simulate_improvement d (pre ++ (fg, tg, c) :: rest) =
        .error (.notEnoughCredits fg)) ∧
    (simulate_improvement_main d pre = .ok s → 0 < c →
      simulate_improvement_main d (pre ++ (fg, tg, c) :: rest) =
        .error (.notEnoughCredits fg)) := by
  constructor
  · intro hpre
    rw [simulate_improvement_append, hpre]
    show simulate_improvement s ((fg, tg, c) :: rest) = _
    unfold simulate_improvement
    rw [if_neg, if_pos hc]
    push_neg
    exact ⟨hfg, htg⟩
  · intro hpre hcpos
    rw [simulate_improvement_main_append, hpre]
    show simulate_improvement_main s ((fg, tg, c) :: rest) = _
    unfold simulate_improvement_main
    rw [if_neg, if_neg (not_le.mpr hcpos), if_pos hc]
    push_neg
    exact ⟨hfg, htg⟩

/-- Witness for C9 at the spec's Example 3: `{B: 6}`, converting 8 credits
from `B` fails with the not-enough-credits error in both implementations. -/
theorem improvement_insufficient_credits_fails_witness :
    (gradePoints Grade.B).isSome = true ∧
    (gradePoints Grade.A).isSome = true ∧
    dget (dset emptyDist Grade.B 6) Grade.B < 8 ∧
    simulate_improvement (dset emptyDist Grade.B 6) [] = .ok (dset emptyDist Grade.B 6) ∧
    simulate_improvement_main (dset emptyDist Grade.B 6) [] =
      .ok (dset emptyDist Grade.B 6) ∧
    (0 : ℚ) < 8 ∧
    simulate_improvement (dset emptyDist Grade.B 6)
        ([] ++ (Grade.B, Grade.A, 8) :: []) = .error (.notEnoughCredits Grade.B) ∧
    simulate_improvement_main (dset emptyDist Grade.B 6)
        ([] ++ (Grade.B, Grade.A, 8) :: []) = .error (.notEnoughCredits Grade.B) :=
  ⟨rfl, rfl, by norm_num [dget, dset], rfl, rfl, by norm_num,
    (improvement_insufficient_credits_fails (dset emptyDist Grade.B 6)
      (dset emptyDist Grade.B 6) [] [] Grade.B Grade.A 8 rfl rfl
      (by norm_num [dget, dset])).1 rfl,
    (improvement_insufficient_credits_fails (dset emptyDist Grade.B 6)
      (dset emptyDist Grade.B 6) [] [] Grade.B Grade.A 8 rfl rfl
      (by norm_num [dget, dset])).2 rfl (by norm_num)⟩

/-- C5 counterexample: a single record bearing grade `P` with 3 credits.
The claim says the distribution must report `P ↦ 3` (a nonzero total), but
`get_grade_distribution` iterates only over the keys of `grade_points`,
which do not include `P`, so the result is empty. -/
theorem grade_distribution_omits_P :
    get_grade_distribution [⟨3, Grade.P⟩] = [] ∧ (3 : ℤ) ≠ 0 := by decide

/-- C5 (amended): for records with non-negative credits,
`get_grade_distribution` associates exactly the seven point-bearing grades
(`P` excluded) having nonzero credit total to that total. -/
theorem grade_distribution_correct (df : List CourseRec)
    (h : ∀ r ∈ df, 0 ≤ r.credits) (g : Grade) (c : ℤ) :
    (g, c) ∈ get_grade_distribution df ↔
      g ≠ Grade.P ∧ c = creditsForGrade df g ∧ c ≠ 0 := by
  have hkeys : ∀ a : Grade, a ∈ gradePointsKeys ↔ a ≠ Grade.P := by
    intro a
    cases a <;> simp [gradePointsKeys]
  have hnonneg : ∀ a : Grade, 0 ≤ creditsForGrade df a := by
    intro a
    apply List.sum_nonneg
    intro x hx
    obtain ⟨r, hr, rfl⟩ := List.mem_map.mp hx
    exact h r (List.mem_filter.mp hr).1
  unfold get_grade_distribution
  rw [List.mem_filterMap]
  constructor
  · rintro ⟨a, ha, hfa⟩
    by_cases hc : creditsForGrade df a > 0
    · rw [if_pos hc] at hfa
      obtain ⟨rfl, rfl⟩ := Prod.mk.injEq .. ▸ Option.some.injEq .. ▸ hfa
      exact ⟨(hkeys a).mp ha, rfl, ne_of_gt hc⟩
    · rw [if_neg hc] at hfa
      cases hfa
  · rintro ⟨hg, rfl, hc⟩
    refine ⟨g, (hkeys g).mpr hg, ?_⟩
    rw [if_pos (lt_of_le_of_ne (hnonneg g) (Ne.symm hc))]

/-- Witness for C5 (amended) at the concrete table `[{credits := 3, grade := A}]`. -/
theorem grade_distribution_correct_witness :
    (∀ r ∈ ([⟨3, Grade.A⟩] : List CourseRec), 0 ≤ r.credits) ∧
    ((Grade.A, (3 : ℤ)) ∈ get_grade_distribution [⟨3, Grade.A⟩] ↔
      Grade.A ≠ Grade.P ∧ (3 : ℤ) = creditsForGrade [⟨3, Grade.A⟩] Grade.A ∧
        (3 : ℤ) ≠ 0) :=
  ⟨by decide, grade_distribution_correct [⟨3, Grade.A⟩] (by decide) Grade.A 3⟩

/-- The Cartesian product over `k` buckets has `7^k` assignments. -/
theorem allCombos_length (n : ℕ) : (allCombos n).length = 7 ^ n := by
  induction n with
  | zero => rfl
  | succ n ih =>
    simp [allCombos, possibleGrades, List.length_flatMap, ih, pow_succ]
    ring

/-- C7: the aggregate-mode planner returns the claimed
`required_avg` formula, enumerates all `7^k` grade assignments, retains
exactly those whose projected CGPA reaches the target, and returns them
sorted ascending by projected CGPA. -/
theorem plan_target_cgpa_correct (target ctc ctp : ℚ) (groups : List ℚ) :
    (plan_target_cgpa target ctc ctp groups).1 =
        (target * (ctc + groups.sum) - ctp) / groups.sum ∧
    (allCombos groups.length).length = 7 ^ groups.length ∧
    (∀ (combo : List Grade) (pc : ℚ),
      (combo, pc) ∈ (plan_target_cgpa target ctc ctp groups).2 ↔
        (combo ∈ allCombos groups.length ∧
          pc = projected_cgpa ctc ctp groups combo ∧ target ≤ pc)) ∧
    List.Pairwise (fun a b : List Grade × ℚ => a.2 ≤ b.2)
      (plan_target_cgpa target ctc ctp groups).2 := by
  refine ⟨rfl, allCombos_length _, ?_, ?_⟩
  · intro combo pc
    unfold plan_target_cgpa
    rw [List.mem_mergeSort, List.mem_filterMap]
    constructor
    · rintro ⟨a, ha, hfa⟩
      by_cases hp : projected_cgpa ctc ctp groups a ≥ target
      · rw [if_pos hp] at hfa
        obtain ⟨rfl, rfl⟩ := Prod.mk.injEq .. ▸ Option.some.injEq .. ▸ hfa
        exact ⟨ha, rfl, hp⟩
      · rw [if_neg hp] at hfa
        cases hfa
    · rintro ⟨hmem, rfl, hp⟩
      exact ⟨combo, hmem, if_pos hp⟩
  · have hs := @List.sorted_mergeSort (List Grade × ℚ)
      (fun a b : List Grade × ℚ => decide (a.2 ≤ b.2))
      (fun a b c h1 h2 => by
        simp only [decide_eq_true_iff] at *
        exact le_trans h1 h2)
      (fun a b => by
        simp only [Bool.or_eq_true, decide_eq_true_iff]
        exact le_total _ _)
      ((allCombos groups.length).filterMap fun combo =>
        if projected_cgpa ctc ctp groups combo ≥ target then
          some (combo, projected_cgpa ctc ctp groups combo)
        else none)
    exact hs.imp fun h => of_decide_eq_true h

/-- `future_points` splits around an aligned single position. -/
theorem future_points_append (xs ys : List ℚ) (bj : ℚ) (pre suf : List Grade)
    (g : Grade) (hlen : xs.length = pre.length) :
    future_points (xs ++ bj :: ys) (pre ++ g :: suf) =
      future_points xs pre + bj * ((gradePoints g).getD 0 : ℚ) +
        future_points ys suf := by
  unfold future_points
  rw [List.zip_append hlen, List.zip_cons_cons, List.map_append, List.sum_append,
    List.map_cons, List.sum_cons]
  ring

/-- C8: with positive bucket credits and non-negative current aggregates,
raising the grade assigned to any single bucket (in point order) never
decreases the projected CGPA. -/
theorem projected_cgpa_monotone (ctc ctp : ℚ) (hctc : 0 ≤ ctc) (hctp : 0 ≤ ctp)
    (xs ys : List ℚ) (bj : ℚ) (pre suf : List Grade) (g1 g2 : Grade)
    (hlen : xs.length = pre.length)
    (hpos : ∀ c ∈ xs ++ bj :: ys, 0 < c)
    (hg : ((gradePoints g1).getD 0 : ℚ) ≤ ((gradePoints g2).getD 0 : ℚ)) :
    projected_cgpa ctc ctp (xs ++ bj :: ys) (pre ++ g1 :: suf) ≤
      projected_cgpa ctc ctp (xs ++ bj :: ys) (pre ++ g2 :: suf) := by
  have hbj : 0 < bj := hpos bj (by simp)
  have hsum : 0 < (xs ++ bj :: ys).sum := by
    apply List.sum_pos _ hpos
    simp
  have hden : 0 < ctc + (xs ++ bj :: ys).sum := by linarith
  unfold projected_cgpa
  rw [div_le_div_iff_of_pos_right hden, future_points_append _ _ _ _ _ _ hlen,
    future_points_append _ _ _ _ _ _ hlen]
  nlinarith

/-- Witness for C8: one 4-credit bucket, aggregates (20 credits, 180
points); raising the bucket's grade from `F` to `A` does not decrease the
projected CGPA. -/
theorem projected_cgpa_monotone_witness :
    (0 : ℚ) ≤ 20 ∧ (0 : ℚ) ≤ 180 ∧
    (∀ c ∈ ([] ++ (4 : ℚ) :: []), 0 < c) ∧
    ((gradePoints Grade.F).getD 0 : ℚ) ≤ ((gradePoints Grade.A).getD 0 : ℚ) ∧
    projected_cgpa 20 180 ([] ++ (4 : ℚ) :: []) ([] ++ Grade.F :: []) ≤
      projected_cgpa 20 180 ([] ++ (4 : ℚ) :: []) ([] ++ Grade.A :: []) :=
  ⟨by norm_num, by norm_num,
    by intro c hc; simp only [List.nil_append, List.mem_singleton] at hc; subst hc; norm_num,
    by norm_num [gradePoints],
    projected_cgpa_monotone 20 180 (by norm_num) (by norm_num) [] [] 4 [] []
      Grade.F Grade.A rfl
      (by intro c hc; simp only [List.nil_append, List.mem_singleton] at hc; subst hc; norm_num)
      (by norm_num [gradePoints])⟩

/-- Two permutations of each other that are both sorted by non-increasing
key are equal when the keys are distinct (sorting by distinct keys is
deterministic). -/
theorem eq_of_perm_sorted_keys {α : Type} (f : α → ℕ) :
    ∀ l₁ l₂ : List α, l₁.Perm l₂ →
      l₁.Pairwise (fun a b => f b ≤ f a) →
      l₂.Pairwise (fun a b => f b ≤ f a) →
      (l₁.map f).Nodup → l₁ = l₂
  | [], l₂, hp, _, _, _ => (hp.symm.eq_nil).symm
  | a :: t₁, l₂, hp, h₁, h₂, hnd => by
    cases l₂ with
    | nil => exact absurd hp.eq_nil (by simp)
    | cons b t₂ =>
      by_cases hab : a = b
      · subst hab
        have ht := eq_of_perm_sorted_keys f t₁ t₂ hp.cons_inv h₁.of_cons h₂.of_cons
          (by simpa using (List.nodup_cons.mp (by simpa using hnd)).2)
        rw [ht]
      · exfalso
        have ha2 : a ∈ t₂ := by
          have h := hp.mem_iff.mp (List.mem_cons_self a t₁)
          rcases List.mem_cons.mp h with h | h
          · exact absurd h hab
          · exact h
        have hb1 : b ∈ t₁ := by
          have h := hp.mem_iff.mpr (List.mem_cons_self b t₂)
          rcases List.mem_cons.mp h with h | h
          · exact absurd h.symm hab
          · exact h
        have hfa_le : f a ≤ f b := (List.pairwise_cons.mp h₂).1 a ha2
        have hfb_le : f b ≤ f a := (List.pairwise_cons.mp h₁).1 b hb1
        have hnotin : f a ∉ List.map f t₁ := (List.nodup_cons.mp (by simpa using hnd)).1
        exact hnotin (le_antisymm hfa_le hfb_le ▸ List.mem_map_of_mem f hb1)

/-- Sorting the enumerated rows by strictly-increasing synthetic date in
descending order reverses the input order. -/
theorem sort_desc_enum (rows : List RawRow) :
    (rows.enum.mergeSort fun a b => decide (b.1 ≤ a.1)) = rows.enum.reverse := by
  have hperm : (rows.enum.mergeSort fun a b => decide (b.1 ≤ a.1)).Perm
      rows.enum.reverse :=
    (List.mergeSort_perm _ _).trans (List.reverse_perm _).symm
  have hfst : List.map Prod.fst rows.enum = List.range rows.length := by
    rw [List.enum_eq_zip_range]
    exact List.map_fst_zip _ _ (by simp)
  have henum_lt : rows.enum.Pairwise (fun a b : ℕ × RawRow => a.1 < b.1) := by
    have h := List.pairwise_lt_range rows.length
    rw [← hfst, List.pairwise_map] at h
    exact h
  have hsorted1 : (rows.enum.mergeSort fun a b => decide (b.1 ≤ a.1)).Pairwise
      (fun a b : ℕ × RawRow => b.1 ≤ a.1) := by
    have h := @List.sorted_mergeSort (ℕ × RawRow)
      (fun a b : ℕ × RawRow => decide (b.1 ≤ a.1))
      (fun a b c h1 h2 => by
        simp only [decide_eq_true_iff] at *
        exact le_trans h2 h1)
      (fun a b => by
        simp only [Bool.or_eq_true, decide_eq_true_iff]
        exact le_total _ _)
      rows.enum
    exact h.imp fun h => of_decide_eq_true h
  have hsorted2 : rows.enum.reverse.Pairwise (fun a b : ℕ × RawRow => b.1 ≤ a.1) := by
    rw [List.pairwise_reverse]
    exact henum_lt.imp le_of_lt
  have hnd : ((rows.enum.mergeSort fun a b => decide (b.1 ≤ a.1)).map Prod.fst).Nodup := by
    have h : (rows.enum.map Prod.fst).Nodup := by
      rw [hfst]
      exact List.nodup_range _
    exact (((List.mergeSort_perm rows.enum _).map Prod.fst).nodup_iff).mpr h
  exact eq_of_perm_sorted_keys Prod.fst _ _ hperm hsorted1 hsorted2 hnd

/-- Every survivor of `drop_duplicates` comes from the input. -/
theorem mem_dropDuplicatesBy {α β : Type} [DecidableEq β] (key : α → β) (x : α) :
    ∀ l : List α, x ∈ dropDuplicatesBy key l → x ∈ l := by
  intro l
  induction l using dropDuplicatesBy.induct key with
  | case1 =>
    intro h
    unfold dropDuplicatesBy at h
    exact h
  | case2 a xs ih =>
    intro h
    unfold dropDuplicatesBy at h
    rcases List.mem_cons.mp h with h | h
    · exact h ▸ List.mem_cons_self _ _
    · exact List.mem_cons_of_mem _ ((List.mem_filter.mp (ih h)).1)

/-- The rows of a `drop_duplicates(keep='first')` result bearing a given
key value are exactly the first input row bearing it. -/
theorem filter_dropDuplicatesBy {α β : Type} [DecidableEq β] (key : α → β) (t : β)
    (q : α → Bool) (hq : ∀ x, q x = decide (key x = t)) :
    ∀ l : List α, (dropDuplicatesBy key l).filter q = ((l.filter q).head?).toList := by
  intro l
  induction l using dropDuplicatesBy.induct key with
  | case1 =>
    unfold dropDuplicatesBy
    rfl
  | case2 x xs ih =>
    unfold dropDuplicatesBy
    by_cases hx : key x = t
    · have hqx : q x = true := by rw [hq]; exact decide_eq_true hx
      rw [List.filter_cons_of_pos hqx, List.filter_cons_of_pos hqx]
      have hnil : (dropDuplicatesBy key
          (xs.filter fun y => decide (key y ≠ key x))).filter q = [] := by
        rw [List.filter_eq_nil_iff]
        intro a ha
        have hmem := mem_dropDuplicatesBy _ a _ ha
        have hne : key a ≠ key x := of_decide_eq_true (List.mem_filter.mp hmem).2
        rw [hq]
        simp only [decide_eq_true_iff]
        exact fun h => hne (h.trans hx.symm)
      rw [hnil]
      rfl
    · have hqx : q x = false := by
        rw [hq]
        exact decide_eq_false fun h => hx h
      rw [List.filter_cons_of_neg (by rw [hqx]; exact Bool.false_ne_true),
        List.filter_cons_of_neg (by rw [hqx]; exact Bool.false_ne_true), ih]
      have hff : (xs.filter fun y => decide (key y ≠ key x)).filter q =
          xs.filter q := by
        rw [List.filter_filter]
        apply List.filter_congr
        intro a _
        by_cases hqa : q a = true
        · have hat : key a = t := of_decide_eq_true (hq a ▸ hqa)
          have hax : decide (key a ≠ key x) = true :=
            decide_eq_true fun h => hx ((hat ▸ h).symm)
          rw [hqa, hax]
          rfl
        · have hqa2 : q a = false := Bool.eq_false_iff.mpr hqa
          rw [hqa2]
          simp
      rw [hff]

/-- `List.map` commutes with `Option.toList`. -/
theorem toList_map_opt {α β : Type} (f : α → β) (o : Option α) :
    o.toList.map f = (o.map f).toList := by cases o <;> rfl

/-- Dropping the synthetic dates commutes with filtering by a row
predicate. -/
theorem map_snd_filter_enum (rows : List RawRow) (p : RawRow → Bool) :
    ((rows.enum.filter (p ∘ Prod.snd)).map Prod.snd) = rows.filter p := by
  rw [← List.filter_map, List.enum_map_snd]

/-- C1 (amended): in the no-date-column branch, for every title `t` the
cleaned table retains exactly one row per present `normalized_title` —
namely the LAST row of the raw input bearing that title (the synthetic
`pd.date_range` dates increase in row order, so sorting descending and
keeping the first occurrence keeps the latest row). -/
theorem clean_dedup_no_date_keeps_last (rows : List RawRow) (t : String) :
    (clean_dedup_no_date rows).filter (fun r => decide (r.normalized_title = t)) =
      ((rows.filter fun r => decide (r.normalized_title = t)).getLast?).toList := by
  simp only [clean_dedup_no_date]
  rw [sort_desc_enum,
    show (fun p : ℕ × RawRow => p.2) = (Prod.snd : ℕ × RawRow → RawRow) from rfl,
    List.filter_map,
    filter_dropDuplicatesBy (fun pr : ℕ × RawRow => pr.2.normalized_title) t
      ((fun r : RawRow => decide (r.normalized_title = t)) ∘ Prod.snd) (fun _ => rfl),
    List.filter_reverse, List.head?_reverse, toList_map_opt, ← List.getLast?_map,
    map_snd_filter_enum]

/-- C1 counterexample: two rows with equal `normalized_title` "x" and no
date column.  The claim predicts the earlier row (credits 1) survives
deduplication; the code keeps the later row (credits 2), because the
synthetic `pd.date_range(end='today', ...)` dates INCREASE with row order,
so the descending sort puts the last row first and `keep='first'` keeps
it. -/
theorem clean_dedup_no_date_keeps_later_row :
    clean_dedup_no_date [⟨"x", 1, Grade.A⟩, ⟨"x", 2, Grade.B⟩] =
      [⟨"x", 2, Grade.B⟩] ∧
    (⟨"x", 1, Grade.A⟩ : RawRow) ≠ ⟨"x", 2, Grade.B⟩ ∧
    (⟨"x", 1, Grade.A⟩ : RawRow).normalized_title =
      (⟨"x", 2, Grade.B⟩ : RawRow).normalized_title := by
  refine ⟨?_, by decide, rfl⟩
  simp only [clean_dedup_no_date, sort_desc_enum]
  rw [show ([⟨"x", 1, Grade.A⟩, ⟨"x", 2, Grade.B⟩] : List RawRow).enum.reverse =
    [(1, ⟨"x", 2, Grade.B⟩), (0, ⟨"x", 1, Grade.A⟩)] from rfl]
  unfold dropDuplicatesBy
  norm_num
  unfold dropDuplicatesBy
  rfl
